import Mathlib

/-!
Verification development for the quickTerminal repository
(src/my-terminal/src/App.tsx): a shallow embedding of the session-state
emulation and smart-navigation engine, followed by theorems about it.

Modelling conventions:
* The Tauri command executor (`invoke('execute_command', …)`) is an
  abstract parameter `exec : String → Except String String`: `.ok out`
  is a successful invocation returning captured output, `.error e` a
  failure whose JS stringification is `e`.
* React `useState` state is a record `AppState`.  Inside one
  `executeCommand` call the source reads state through the render
  closure (the values at entry) while `setX` calls queue updates; the
  embedding therefore passes the entry snapshot `st0` for reads and an
  evolving state for writes, exactly mirroring that semantics.
* Wall-clock time (`Date.now()`) is a parameter `now`; the two reads
  within one submission are modelled as the same instant.
* A ghost field `calls` records every executor invocation in order, so
  that "the executor is never consulted" is expressible.
* JS string operations are modelled at the character-list level
  (`split(' ')`, `trim`, `startsWith`, `substring`, …) so that they are
  executable and provable.
-/

namespace QuickTerm

/-- JS whitespace test used by `String.prototype.trim` (restricted to the
ASCII whitespace that occurs in this program's data). -/
def jsWsp (c : Char) : Bool := c = ' ' || c = '\t' || c = '\n' || c = '\r'

/-- Character-list core of JS `trim`: drop leading and trailing whitespace. -/
def jsTrimList (l : List Char) : List Char :=
  ((l.dropWhile jsWsp).reverse.dropWhile jsWsp).reverse

/-- JS `s.trim()`. -/
def jsTrim (s : String) : String := String.mk (jsTrimList s.data)

/-- JS `s.startsWith(p)`. -/
def jsStartsWith (s p : String) : Bool := s.data.take p.data.length == p.data

/-- JS `s.substring(n)` (all characters in this program's uses are in the
basic plane, so code-unit indexing and character indexing agree). -/
def jsSubstring (s : String) (n : Nat) : String := String.mk (s.data.drop n)

/-- Character-list core of JS `s.split(sep)` for a single-character
separator: the list of chunks between occurrences of `sep`.  The result
is always non-empty (`"".split(' ') = [""]`). -/
def splitOnCharList (sep : Char) : List Char → List (List Char)
  | [] => [[]]
  | c :: cs =>
    match splitOnCharList sep cs with
    | [] => [[c]]
    | g :: gs => if c = sep then [] :: g :: gs else (c :: g) :: gs

/-- JS `s.split(sep)` for a single-character separator. -/
def splitOnChar (sep : Char) (s : String) : List String :=
  (splitOnCharList sep s.data).map String.mk

/-- JS `parts.join(' ')`. -/
def joinSpace : List String → String
  | [] => ""
  | [x] => x
  | x :: xs => x ++ " " ++ joinSpace xs

/-- JS `arr.slice(start)` for an integer `start` (negative counts from the
end, out-of-range values are clamped, as in ECMAScript). -/
def jsSliceFrom {α : Type} (l : List α) (s : Int) : List α :=
  let len : Int := l.length
  let start : Int := if s < 0 then max (len + s) 0 else min s len
  l.drop start.toNat

/-- JS `parseInt(s)` restricted to decimal inputs (`none` models `NaN`).
The legacy automatic hexadecimal detection of `parseInt` is not modelled;
no datum of this program triggers it. -/
def jsParseInt (s : String) : Option Int :=
  let l := s.data.dropWhile jsWsp
  let (sign, l₂) : Int × List Char :=
    match l with
    | '-' :: t => (-1, t)
    | '+' :: t => (1, t)
    | _ => (1, l)
  let ds := l₂.takeWhile Char.isDigit
  if ds = [] then none
  else some (sign * (ds.foldl (fun acc c => acc * 10 + (c.toNat - '0'.toNat)) 0 : Nat))

/-- JS `String(i).padStart(3, ' ')`. -/
def padStart3 (s : String) : String :=
  if s.data.length < 3 then String.mk (List.replicate (3 - s.data.length) ' ') ++ s else s

/-! ### `stripAnsi` (App.tsx lines 33–37)

The source applies three global regex replacements in order.  Each is
modelled as a left-to-right scan that removes every match; on a failed
match attempt at an ESC character the scan resumes at the next character,
as the JS regex engine does.  The scans are driven by a fuel argument
equal to the input length (each step consumes at least one character, so
the fuel never runs out on the initial call). -/

/-- Parameter characters of a CSI sequence: `[0-9;]`. -/
def csiParam (c : Char) : Bool := c.isDigit || c = ';'

/-- Final characters of the first regex: `[JKmsu]`. -/
def csiFinal1 (c : Char) : Bool := c = 'J' || c = 'K' || c = 'm' || c = 's' || c = 'u'

/-- Match the tail (after ESC) of `\x1B\[[0-9;]*[JKmsu]`; returns the
remainder of the input after the match. -/
def matchCsi1 (l : List Char) : Option (List Char) :=
  match l with
  | '[' :: rest =>
    match rest.dropWhile csiParam with
    | c :: tail => if csiFinal1 c then some tail else none
    | [] => none
  | _ => none

/-- Match the tail (after ESC) of `\x1B\[[\?]?[0-9;]*[a-zA-Z]`. -/
def matchCsi2 (l : List Char) : Option (List Char) :=
  match l with
  | '[' :: rest =>
    let rest₂ := match rest with
      | '?' :: t => t
      | _ => rest
    match rest₂.dropWhile csiParam with
    | c :: tail => if c.isAlpha then some tail else none
    | [] => none
  | _ => none

/-- Match the tail (after ESC) of `\x1B\][0-9];[^\x07]*\x07`. -/
def matchOsc (l : List Char) : Option (List Char) :=
  match l with
  | ']' :: d :: ';' :: rest =>
    if d.isDigit then
      match rest.dropWhile (fun c => c ≠ '\x07') with
      | _ :: tail => some tail
      | [] => none
    else none
  | _ => none

/-- One global-replace pass: remove every match of `'\x1b'` followed by
`matcher`, scanning left to right. -/
def stripAnsiPass (matcher : List Char → Option (List Char)) : Nat → List Char → List Char
  | 0, l => l
  | _ + 1, [] => []
  | fuel + 1, c :: rest =>
    if c = '\x1b' then
      match matcher rest with
      | some tail => stripAnsiPass matcher fuel tail
      | none => c :: stripAnsiPass matcher fuel rest
    else c :: stripAnsiPass matcher fuel rest

/-- `stripAnsi` (App.tsx lines 33–37): the three replacements in order. -/
def stripAnsi (s : String) : String :=
  let p1 := stripAnsiPass matchCsi1 s.data.length s.data
  let p2 := stripAnsiPass matchCsi2 p1.length p1
  let p3 := stripAnsiPass matchOsc p2.length p2
  String.mk p3

/-! ### Data model (App.tsx lines 5–57) -/

/-- `TerminalLine.type`: `'output' | 'error' | 'command'`. -/
inductive LineType where
  | output
  | error
  | command
deriving Repr, DecidableEq

/-- The optional `meta` of a command-type transcript line: the displayed
directory label and the branch label as of submission time. -/
structure LineMeta where
  dir : String
  branch : String
deriving Repr, DecidableEq

/-- A transcript line (`TerminalLine`, App.tsx lines 23–30). -/
structure TerminalLine where
  type : LineType
  text : String
  meta : Option LineMeta := none
deriving Repr, DecidableEq

/-- A command log entry (`CommandLog`, App.tsx lines 5–12).  `timestamp`
and `duration` come from `Date.now()`; they carry the `now` parameter of
the embedding. -/
structure CommandLog where
  timestamp : Int
  command : String
  directory : String
  duration : Int
  success : Bool
  outputLines : Nat
deriving Repr, DecidableEq, Inhabited

/-- `PerformanceMetrics` (App.tsx lines 14–21).  `averageTime` is a JS
float in the source; it is modelled with integer division (presentation
only, no claim depends on it). -/
structure PerformanceMetrics where
  totalCommands : Nat
  totalTime : Int
  averageTime : Int
  slowestCommand : String
  fastestCommand : String
  commandFrequency : List (String × Nat)
deriving Repr, DecidableEq

/-- The `useState` state of the `App` component (App.tsx lines 40–55),
plus the ghost field `calls` recording every executor invocation. -/
structure AppState where
  input : String
  output : List TerminalLine
  isLoading : Bool
  currentDir : String
  previousDir : String
  gitBranch : String
  commandHistory : List String
  historyIndex : Int
  tempInput : String
  commandLogs : List CommandLog
  commandStartTime : Int
  showPerfMonitor : Bool
  calls : List String
deriving Repr, DecidableEq

/-- The initial component state (the `useState` initialisers). -/
def initialAppState : AppState where
  input := ""
  output := []
  isLoading := false
  currentDir := ""
  previousDir := ""
  gitBranch := ""
  commandHistory := []
  historyIndex := -1
  tempInput := ""
  commandLogs := []
  commandStartTime := 0
  showPerfMonitor := false
  calls := []

/-- The executor interface: one shell command-line string in, captured
output or a stringifiable failure out. -/
abbrev Exec := String → Except String String

/-! ### Statistics and log formatting (App.tsx lines 97–190)

These are read-only presentation helpers of the `stats`/`logs`/`history`
built-ins.  Wall-clock text (`toLocaleTimeString`) and JS float
formatting (`toFixed`) are rendered from the integer model instead; no
claim depends on the rendered digits. -/

/-- `logCommand` (App.tsx lines 97–114).  `st0` is the entry snapshot the
closure reads (`currentDir`, `commandStartTime`), `st` the evolving
state being written. -/
def logCommand (now : Int) (st0 st : AppState) (command : String) (success : Bool)
    (outputLines : Nat) : AppState :=
  { st with
    commandLogs := st.commandLogs ++
      [{ timestamp := now
         command
         directory := st0.currentDir
         duration := now - st0.commandStartTime
         success
         outputLines }] }

/-- Stable descending insertion by `duration`, modelling
`[...logs].sort((a, b) => b.duration - a.duration)`. -/
def insertDurationDesc (x : CommandLog) : List CommandLog → List CommandLog
  | [] => [x]
  | y :: ys => if x.duration > y.duration then x :: y :: ys else y :: insertDurationDesc x ys

/-- Sort command logs by descending duration. -/
def sortByDurationDesc (l : List CommandLog) : List CommandLog :=
  l.foldr insertDurationDesc []

/-- Increment a key of the `commandFrequency` object, keeping JS object
insertion order. -/
def bumpFreq (m : List (String × Nat)) (k : String) : List (String × Nat) :=
  match m with
  | [] => [(k, 1)]
  | (k₂, v) :: t => if k₂ = k then (k₂, v + 1) :: t else (k₂, v) :: bumpFreq t k

/-- `calculateStats` (App.tsx lines 117–154). -/
def calculateStats (logs : List CommandLog) : PerformanceMetrics :=
  if logs = [] then
    { totalCommands := 0
      totalTime := 0
      averageTime := 0
      slowestCommand := "N/A"
      fastestCommand := "N/A"
      commandFrequency := [] }
  else
    let totalCommands := logs.length
    let totalTime := (logs.map (·.duration)).sum
    let averageTime := totalTime / totalCommands
    let sortedByDuration := sortByDurationDesc logs
    let slowest := sortedByDuration.headD default
    let fastest := sortedByDuration.getLastD default
    let slowestCommand := s!"{slowest.command} ({slowest.duration}ms)"
    let fastestCommand := s!"{fastest.command} ({fastest.duration}ms)"
    let commandFrequency := logs.foldl
      (fun m log => bumpFreq m ((splitOnChar ' ' log.command).headD "")) []
    { totalCommands, totalTime, averageTime, slowestCommand, fastestCommand, commandFrequency }

/-- Stable descending insertion by count, modelling
`.sort((a, b) => b[1] - a[1])` on `Object.entries`. -/
def insertCountDesc (x : String × Nat) : List (String × Nat) → List (String × Nat)
  | [] => [x]
  | y :: ys => if x.2 > y.2 then x :: y :: ys else y :: insertCountDesc x ys

/-- Render `ms` milliseconds as seconds with two decimals
(`(ms / 1000).toFixed(2)`, truncating). -/
def secondsFixed2 (ms : Int) : String :=
  let centis := ms / 10 % 100
  let pad := if centis < 10 then "0" else ""
  s!"{ms / 1000}.{pad}{centis}"

/-- `formatStats` (App.tsx lines 157–178). -/
def formatStats (stats : PerformanceMetrics) : String :=
  let topCommands := String.intercalate "\n"
    (((stats.commandFrequency.foldr insertCountDesc []).take 10).map
      (fun p => s!"  {p.1}: {p.2} times"))
  jsTrim (String.intercalate "\n"
    ["", "Performance Statistics", "━━━━━━━━━━━━━━━━━━━━━━", "",
     s!"Total Commands: {stats.totalCommands}",
     s!"Total Time: {secondsFixed2 stats.totalTime}s",
     s!"Average Time: {stats.averageTime}.00ms",
     "",
     s!"Slowest Command: {stats.slowestCommand}",
     s!"Fastest Command: {stats.fastestCommand}",
     "",
     "Top Commands:",
     topCommands,
     "    "])

/-- `formatLogs` (App.tsx lines 181–190).  `toLocaleTimeString` is
rendered as the raw timestamp. -/
def formatLogs (logs : List CommandLog) : String :=
  String.intercalate "\n"
    (logs.map (fun log =>
      let status := if log.success then "✓" else "✗"
      s!"{status} [{log.timestamp}] {log.command} ({log.duration}ms)"))

/-! ### Prompt display helpers (App.tsx lines 227–301) -/

/-- `path.replace(/\\/g, '/')`. -/
def normalizeSlashes (s : String) : String :=
  String.mk (s.data.map (fun c => if c = '\\' then '/' else c))

/-- Match one alternative of the home-directory regex
`^(\/Users\/[^\/]+|\/home\/[^\/]+|C:\/Users\/[^\/]+)`: the prefix `p`
followed by a non-empty run of non-`/` characters; returns the matched
text. -/
def matchHomePrefix (p s : String) : Option String :=
  if jsStartsWith s p then
    let seg := (s.data.drop p.data.length).takeWhile (fun c => c ≠ '/')
    if seg = [] then none else some (p ++ String.mk seg)
  else none

/-- The home-directory regex match on an already slash-normalised path. -/
def homeMatch (s : String) : Option String :=
  ((matchHomePrefix "/Users/" s).orElse
    (fun _ => (matchHomePrefix "/home/" s).orElse
      (fun _ => matchHomePrefix "C:/Users/" s)))

/-- The directory-icon table (App.tsx lines 235–267). -/
def iconMap : List (String × String) :=
  [("desktop", "🖥️"), ("documents", "📄"), ("downloads", "⬇️"), ("pictures", "🖼️"),
   ("photos", "📷"), ("music", "🎵"), ("movies", "🎬"), ("videos", "🎥"),
   ("applications", "📦"), ("library", "📚"), ("public", "🌐"),
   ("projects", "💼"), ("project", "💼"), ("code", "💻"), ("src", "📂"),
   ("source", "📂"), ("node_modules", "📦"), ("dist", "📤"), ("build", "🔨"),
   (".git", "🌿"), ("config", "⚙️"), ("bin", "🔧"),
   ("trash", "🗑️"), ("archive", "📦"), ("temp", "⏳"), ("backup", "💾")]

/-- `getDirectoryIcon` (App.tsx lines 227–276). -/
def getDirectoryIcon (path : String) : String :=
  if path = "" then "🏠"
  else
    let normalizedPath := normalizeSlashes path
    let parts := (splitOnChar '/' normalizedPath).filter (· ≠ "")
    let dirName := ((parts.getLast?).map
      (fun s => String.mk (s.data.map Char.toLower))).getD ""
    let fallback := (iconMap.lookup dirName).getD "📁"
    match homeMatch normalizedPath with
    | some m => if normalizedPath = m then "🏠" else fallback
    | none => fallback

/-- `getDisplayPath` (App.tsx lines 279–301). -/
def getDisplayPath (path : String) : String :=
  if path = "" then "🏠 ~"
  else
    let normalizedPath := normalizeSlashes path
    let homeDir := (homeMatch normalizedPath).getD ""
    let icon := getDirectoryIcon normalizedPath
    if homeDir ≠ "" ∧ normalizedPath = homeDir then icon ++ " ~"
    else
      let parts := (splitOnChar '/' normalizedPath).filter (· ≠ "")
      let dirName := (parts.getLast?).getD "/"
      icon ++ " " ++ dirName

/-- The command-type transcript line appended for a submission: it
snapshots the directory label and branch label as of submission time
(the entry state `st0`). -/
def commandLine (st0 : AppState) (cmd : String) : TerminalLine :=
  { type := .command
    text := cmd
    meta := some { dir := getDisplayPath st0.currentDir, branch := st0.gitBranch } }

/-! ### Branch query and history recording (App.tsx lines 192–202, 304–319) -/

/-- The shell line issued by `updateGitBranch`. -/
def branchCmd (dir : String) : String :=
  s!"cd \"{dir}\" && git branch --show-current 2>/dev/null"

/-- `updateGitBranch` (App.tsx lines 193–202): best effort; a failure is
swallowed and clears the label. -/
def updateGitBranch (exec : Exec) (st : AppState) (dir : String) : AppState :=
  let st := { st with calls := st.calls ++ [branchCmd dir] }
  match exec (branchCmd dir) with
  | .ok result => { st with gitBranch := stripAnsi (jsTrim result) }
  | .error _ => { st with gitBranch := "" }

/-- The pure history update of `addToHistory` (App.tsx lines 307–314):
drop any equal entry, append as most recent, keep the last 100. -/
def addToHistoryList (prev : List String) (cmd : String) : List String :=
  let filtered := prev.filter (fun c => c ≠ cmd)
  let newHistory := filtered ++ [cmd]
  jsSliceFrom newHistory (-100)

/-- `addToHistory` (App.tsx lines 304–319). -/
def addToHistory (st : AppState) (cmd : String) : AppState :=
  if jsTrim cmd = "" then st
  else
    { st with
      commandHistory := addToHistoryList st.commandHistory cmd
      historyIndex := -1
      tempInput := "" }

/-! ### Alias expansion (App.tsx lines 333–361) -/

/-- The alias table (App.tsx lines 333–352). -/
def aliases : List (String × String) :=
  [("ll", "ls -la"), ("la", "ls -la"), ("l", "ls -lh"), ("ls", "ls --color=auto"),
   ("..", "cd .."), ("...", "cd ../.."), ("....", "cd ../../.."),
   ("~", "cd ~"), ("-", "cd -"),
   ("md", "mkdir"), ("rd", "rmdir"), ("cls", "clear"), ("c", "clear"),
   ("gs", "git status"), ("ga", "git add"), ("gc", "git commit"),
   ("gp", "git push"), ("gl", "git log")]

/-- Alias expansion (App.tsx lines 355–361): split on spaces, replace the
leading token when it is an alias key, rejoin; otherwise the line is
unchanged. -/
def aliasExpand (s : String) : String :=
  let cmdParts := splitOnChar ' ' s
  let baseCmd := cmdParts.headD ""
  match aliases.lookup baseCmd with
  | some expansion => joinSpace (expansion :: cmdParts.tail)
  | none => s

/-! ### The `cd` branch (App.tsx lines 363–424) -/

/-- `cd "…" && pwd`. -/
def cdQuoted (d : String) : String := s!"cd \"{d}\" && pwd"

/-- The target extraction (App.tsx line 375):
`trimmedCmd === 'cd' ? '~' : trimmedCmd.substring(3).trim() || '~'`. -/
def cdTarget (trimmedCmd : String) : String :=
  if trimmedCmd = "cd" then "~"
  else
    let t := jsTrim (jsSubstring trimmedCmd 3)
    if t = "" then "~" else t

/-- The drive-letter test `/^[a-zA-Z]:\\/`. -/
def isDriveLetterPath (t : String) : Bool :=
  match t.data with
  | a :: b :: c :: _ => a.isAlpha && b = ':' && c = '\\'
  | _ => false

/-- The verification command for a non-`-` target (App.tsx lines
388–397). -/
def cdTestCmd (currentDir targetDir : String) : String :=
  if targetDir = "~" ∨ targetDir = "" then "cd && pwd"
  else if jsStartsWith targetDir "~" then
    let pathAfterTilde := jsSubstring targetDir 1
    s!"cd \"$HOME{pathAfterTilde}\" && pwd"
  else if jsStartsWith targetDir "/" = true ∨ isDriveLetterPath targetDir = true then
    cdQuoted targetDir
  else if currentDir ≠ "" then s!"cd \"{currentDir}\" && cd \"{targetDir}\" && pwd"
  else cdQuoted targetDir

/-- The directory a `cd` submission actually resolves against: `-` is
rewritten to `previousDirectory` (App.tsx line 381); it is also the name
shown in the failure message. -/
def cdDisplayTarget (previousDir targetDir : String) : String :=
  if targetDir = "-" then previousDir else targetDir

/-- The verification command a `cd` submission issues, covering the `-`
rewriting (App.tsx lines 379–397). -/
def cdAttemptCmd (st0 : AppState) (targetDir : String) : String :=
  if targetDir = "-" then cdQuoted st0.previousDir
  else cdTestCmd st0.currentDir targetDir

/-- The verify-and-commit step shared by every `cd` case (App.tsx lines
399–422): ask the executor to perform the change; on success commit
`(previousDir, currentDir)` and refresh the branch label; on failure
report one error line and leave the session state alone. -/
def cdVerify (exec : Exec) (now : Int) (st0 st : AppState)
    (trimmedCmd targetDir testCmd : String) : AppState :=
  let st := { st with calls := st.calls ++ [testCmd] }
  match exec testCmd with
  | .ok result =>
    let newDir := stripAnsi (jsTrim result)
    let st := { st with previousDir := st0.currentDir, currentDir := newDir }
    let st := updateGitBranch exec st newDir
    let st := { st with output := st.output ++ [{ type := .output, text := "" }] }
    logCommand now st0 st trimmedCmd true 1
  | .error _ =>
    let st := { st with
      output := st.output ++
        [{ type := .error, text := s!"cd: {targetDir}: No such file or directory" },
         { type := .output, text := "" }] }
    logCommand now st0 st trimmedCmd false 1

/-- The whole `cd` branch (App.tsx lines 363–424).  The source nests the
`-` case's `previousDir` test inside the target dispatch; flattening it
to one guard (`target is - and nothing recorded`) plus one shared
verify call is equivalent. -/
def handleCd (exec : Exec) (now : Int) (st0 st : AppState) (cmd trimmedCmd : String) :
    AppState :=
  let st := { st with output := st.output ++ [commandLine st0 cmd], input := "" }
  let targetDir := cdTarget trimmedCmd
  if targetDir = "-" ∧ st0.previousDir = "" then
    let st := { st with
      output := st.output ++ [{ type := .error, text := "cd: OLDPWD not set" }] }
    logCommand now st0 st trimmedCmd false 1
  else
    cdVerify exec now st0 st trimmedCmd (cdDisplayTarget st0.previousDir targetDir)
      (cdAttemptCmd st0 targetDir)

/-! ### Implicit jump, ordinary execution, and the dispatcher
(App.tsx lines 321–596) -/

/-- One character of the implicit-jump pattern `[a-zA-Z0-9_.-]`. -/
def isDirChar (c : Char) : Bool :=
  c.isAlpha || c.isDigit || c = '_' || c = '.' || c = '-'

/-- The implicit-jump test `/^[a-zA-Z0-9_.-]+$/.test(trimmedCmd)`
(App.tsx line 535). -/
def isDirPattern (s : String) : Bool :=
  !s.data.isEmpty && s.data.all isDirChar

/-- The speculative resolution command of the implicit jump (App.tsx
lines 540–542). -/
def specCmd (currentDir trimmedCmd : String) : String :=
  if currentDir ≠ "" then s!"cd \"{currentDir}\" && cd \"{trimmedCmd}\" && pwd"
  else cdQuoted trimmedCmd

/-- Ordinary command execution (App.tsx lines 569–595): prefix with a
change into `currentDir`, run, append output/error plus a blank line.
The closure reads `output.length` before and after from the same entry
snapshot, so the logged `outputLines` difference is `0`. -/
def ordinaryExecute (exec : Exec) (now : Int) (st0 st : AppState)
    (cmd trimmedCmd : String) : AppState :=
  let st := { st with isLoading := true, output := st.output ++ [commandLine st0 cmd] }
  let fullCmd :=
    if st0.currentDir ≠ "" then s!"cd \"{st0.currentDir}\" && {trimmedCmd}"
    else trimmedCmd
  let outputBeforeCount := st0.output.length
  let st := { st with calls := st.calls ++ [fullCmd] }
  match exec fullCmd with
  | .ok result =>
    let st :=
      if result ≠ "" then
        { st with output := st.output ++ [{ type := .output, text := stripAnsi result }] }
      else st
    let st := { st with output := st.output ++ [{ type := .output, text := "" }] }
    let outputAfterCount := st0.output.length
    let st := logCommand now st0 st trimmedCmd true (outputAfterCount - outputBeforeCount)
    { st with isLoading := false, input := "" }
  | .error e =>
    let st := { st with
      output := st.output ++ [{ type := .error, text := e }, { type := .output, text := "" }] }
    let st := logCommand now st0 st trimmedCmd false 0
    { st with isLoading := false, input := "" }

/-- The `history` built-in's text (App.tsx line 524). -/
def historyText (h : List String) : String :=
  String.intercalate "\n"
    (h.enum.map (fun p => padStart3 (toString (p.1 + 1)) ++ "  " ++ p.2))

/-- The `logs` built-in's selection of recent entries (App.tsx lines
456–466): `parts[1] ? parseInt(parts[1]) : 20`, then `slice(-count)`
(`NaN` converts to `0`, selecting everything). -/
def recentLogsFor (logs : List CommandLog) (parts : List String) : List CommandLog :=
  match parts.get? 1 with
  | some p =>
    if p ≠ "" then
      match jsParseInt p with
      | some k => jsSliceFrom logs (-k)
      | none => jsSliceFrom logs 0
    else jsSliceFrom logs (-20)
  | none => jsSliceFrom logs (-20)

/-- `executeCommand` (App.tsx lines 321–596): one submission processed to
completion.  `st0` reads below are the component closure's entry values;
the returned state accumulates the queued updates. -/
def executeCommand (exec : Exec) (now : Int) (st0 : AppState) (cmd : String) : AppState :=
  if jsTrim cmd = "" then st0
  else
    let trimmedCmd := jsTrim cmd
    let st := { st0 with commandStartTime := now }
    let st := addToHistory st trimmedCmd
    let trimmedCmd := aliasExpand trimmedCmd
    if jsStartsWith trimmedCmd "cd " = true ∨ trimmedCmd = "cd" then
      handleCd exec now st0 st cmd trimmedCmd
    else if trimmedCmd = "clear" then
      let st := { st with output := [], input := "" }
      logCommand now st0 st trimmedCmd true 0
    else if trimmedCmd = "stats" ∨ trimmedCmd = "performance" then
      let st := { st with output := st.output ++ [commandLine st0 cmd] }
      let stats := calculateStats st0.commandLogs
      let st := { st with
        output := st.output ++
          [{ type := .output, text := formatStats stats }, { type := .output, text := "" }]
        input := "" }
      logCommand now st0 st trimmedCmd true 1
    else if jsStartsWith trimmedCmd "logs" = true then
      let parts := splitOnChar ' ' trimmedCmd
      let st := { st with output := st.output ++ [commandLine st0 cmd] }
      let recentLogs := recentLogsFor st0.commandLogs parts
      let st := { st with
        output := st.output ++
          [{ type := .output, text := formatLogs recentLogs }, { type := .output, text := "" }]
        input := "" }
      logCommand now st0 st trimmedCmd true 1
    else if trimmedCmd = "export logs" ∨ trimmedCmd = "export-logs" then
      let st := { st with output := st.output ++ [commandLine st0 cmd] }
      -- The browser blob download is a side effect outside the model;
      -- its `try` block cannot fail here, so the success line is taken.
      let st := { st with
        output := st.output ++
          [{ type := .output, text := s!"Exported {st0.commandLogs.length} logs" },
           { type := .output, text := "" }]
        input := "" }
      logCommand now st0 st trimmedCmd true 1
    else if trimmedCmd = "history" then
      let st := { st with output := st.output ++ [commandLine st0 cmd] }
      let st := { st with
        output := st.output ++
          [{ type := .output, text := historyText st0.commandHistory },
           { type := .output, text := "" }]
        input := "" }
      logCommand now st0 st trimmedCmd true 1
    else if isDirPattern trimmedCmd = true then
      let testCmd := specCmd st0.currentDir trimmedCmd
      let st := { st with calls := st.calls ++ [testCmd] }
      match exec testCmd with
      | .ok result =>
        let newDir := stripAnsi (jsTrim result)
        let st := { st with previousDir := st0.currentDir, currentDir := newDir }
        let st := updateGitBranch exec st newDir
        let st := { st with
          output := st.output ++ [commandLine st0 cmd, { type := .output, text := "" }]
          input := "" }
        logCommand now st0 st trimmedCmd true 1
      | .error _ => ordinaryExecute exec now st0 st cmd trimmedCmd
    else ordinaryExecute exec now st0 st cmd trimmedCmd

/-! ### Keyboard handling (App.tsx lines 598–665, 706–723) -/

/-- The key events the handler distinguishes. -/
inductive KeyEvent where
  | enter
  | ctrlL
  | ctrlP
  | arrowUp
  | arrowDown
  | other
deriving Repr, DecidableEq

/-- `commandHistory[commandHistory.length - 1 - newIndex]`; the index is
non-negative whenever the handler reads it. -/
def histGet (l : List String) (i : Int) : String := l.getD i.toNat ""

/-- `handleKeyDown` (App.tsx lines 598–665). -/
def handleKeyDown (exec : Exec) (now : Int) (st : AppState) : KeyEvent → AppState
  | .enter => executeCommand exec now st st.input
  | .ctrlL => { st with output := [] }
  | .ctrlP => { st with showPerfMonitor := !st.showPerfMonitor }
  | .arrowUp =>
    if st.commandHistory.length = 0 then st
    else
      let st := if st.historyIndex = -1 then { st with tempInput := st.input } else st
      let newIndex : Int := min (st.historyIndex + 1) ((st.commandHistory.length : Int) - 1)
      let st := { st with historyIndex := newIndex }
      let historyCmd := histGet st.commandHistory ((st.commandHistory.length : Int) - 1 - newIndex)
      { st with input := historyCmd }
  | .arrowDown =>
    if st.historyIndex = -1 then st
    else
      let newIndex := st.historyIndex - 1
      if newIndex = -1 then { st with historyIndex := -1, input := st.tempInput }
      else
        let st := { st with historyIndex := newIndex }
        let historyCmd := histGet st.commandHistory ((st.commandHistory.length : Int) - 1 - newIndex)
        { st with input := historyCmd }
  | .other => st

/-- The input `onChange` handler (App.tsx lines 709–714): store the edited
text and, when a history browse is active, reset the cursor. -/
def onChange (st : AppState) (v : String) : AppState :=
  let st := { st with input := v }
  if st.historyIndex ≠ -1 then { st with historyIndex := -1 } else st

/-- `initDir` (App.tsx lines 205–220): fetch the home directory, seed both
`currentDir` and `previousDir` with it, then query the branch.  On
failure the state is left alone. -/
def initDir (exec : Exec) (st : AppState) : AppState :=
  let st := { st with calls := st.calls ++ ["cd ~ && pwd"] }
  match exec "cd ~ && pwd" with
  | .ok dir =>
    let cleanDir := stripAnsi (jsTrim dir)
    let st := { st with currentDir := cleanDir, previousDir := cleanDir }
    updateGitBranch exec st cleanDir
  | .error _ => st

/-- Number of error-type lines in a transcript. -/
def errorCount (l : List TerminalLine) : Nat :=
  l.countP (fun x => x.type == LineType.error)

/-- The string of `n` dots (the dot-shortcut inputs). -/
def dots (n : Nat) : String := String.mk (List.replicate n '.')

/-- The path that climbs `k` parent-directory levels
(`".."`, `"../.."`, `"../../.."`, …). -/
def upPath : Nat → String
  | 0 => ""
  | 1 => ".."
  | n + 2 => "../" ++ upPath (n + 1)

/-- Char-list counterpart of `joinSpace`, for relating split and join. -/
def joinWithChar (sep : Char) : List (List Char) → List Char
  | [] => []
  | [g] => g
  | g :: gs => g ++ sep :: joinWithChar sep gs

/-! ### Concrete instances used by counterexamples and witnesses -/

/-- An executor on which initialisation succeeds with home `/home/u`:
`cd ~ && pwd` and `cd "/home/u" && pwd` both resolve to `/home/u`,
everything else (including the branch query) fails. -/
def execC2 : Exec := fun s =>
  if s = "cd ~ && pwd" then .ok "/home/u"
  else if s = "cd \"/home/u\" && pwd" then .ok "/home/u"
  else .error "fail"

/-- A state in the middle of a history browse: entries `a`, `b`, cursor
on the older entry `a`. -/
def stC3 : AppState :=
  { initialAppState with
    commandHistory := ["a", "b"], historyIndex := 1, tempInput := "x", input := "a" }

/-- A state five directories deep, for the dot-shortcut counterexample. -/
def stC4 : AppState := { initialAppState with currentDir := "/a/b/c/d/e" }

/-- An executor on which climbing four parent levels from
`/a/b/c/d/e` exists (it resolves to `/a`) but nothing else does. -/
def execC4 : Exec := fun s =>
  if s = "cd \"/a/b/c/d/e\" && cd \"../../../..\" && pwd" then .ok "/a"
  else .error "fail"

/-- A state whose current directory is `/h`. -/
def stC5 : AppState := { initialAppState with currentDir := "/h" }

/-- An executor on which the subdirectory `clear` exists under `/h`. -/
def execC5 : Exec := fun s =>
  if s = "cd \"/h\" && cd \"clear\" && pwd" then .ok "/h/clear"
  else .error "fail"

/-- An executor on which the subdirectory `Desktop` exists under `/h`. -/
def execC5b : Exec := fun s =>
  if s = "cd \"/h\" && cd \"Desktop\" && pwd" then .ok "/h/Desktop"
  else .error "fail"

/-- An executor resolving exactly the two directories `/a` and `/b`. -/
def execC6 : Exec := fun s =>
  if s = "cd \"/a\" && pwd" then .ok "/a"
  else if s = "cd \"/b\" && pwd" then .ok "/b"
  else .error "fail"

/-- The session state right after a successful navigation `/a` → `/b`. -/
def stC6 : AppState := { initialAppState with currentDir := "/b", previousDir := "/a" }

/-! ## Helper lemmas -/

theorem mk_data (s : String) : String.mk s.data = s := rfl

theorem data_append (a b : String) : (a ++ b).data = a.data ++ b.data := rfl

theorem jsTrimList_eq_rdropWhile (l : List Char) :
    jsTrimList l = List.rdropWhile jsWsp (l.dropWhile jsWsp) := rfl

theorem jsTrimList_idem (l : List Char) : jsTrimList (jsTrimList l) = jsTrimList l := by
  rw [jsTrimList_eq_rdropWhile, jsTrimList_eq_rdropWhile]
  set d := l.dropWhile jsWsp with hd
  have h1 : (List.rdropWhile jsWsp d).dropWhile jsWsp = List.rdropWhile jsWsp d := by
    rw [List.dropWhile_eq_self_iff]
    intro hl hp
    have hpre := List.rdropWhile_prefix jsWsp d
    have hdl : 0 < d.length := lt_of_lt_of_le hl hpre.length_le
    have hget : (List.rdropWhile jsWsp d).get ⟨0, hl⟩ = d.get ⟨0, hdl⟩ := by
      simpa using hpre.getElem hl
    rw [hget] at hp
    exact List.dropWhile_get_zero_not jsWsp l hdl hp
  rw [h1]
  exact List.rdropWhile_idempotent jsWsp d

theorem jsTrim_idem (s : String) : jsTrim (jsTrim s) = jsTrim s :=
  congrArg String.mk (jsTrimList_idem s.data)

theorem jsTrim_jsTrim_ne {s : String} (h : jsTrim s ≠ "") : jsTrim (jsTrim s) ≠ "" := by
  rw [jsTrim_idem]; exact h

/-- `updateGitBranch` changes only `gitBranch` and `calls`. -/
@[simp] theorem updateGitBranch_currentDir (exec : Exec) (st : AppState) (d : String) :
    (updateGitBranch exec st d).currentDir = st.currentDir := by
  unfold updateGitBranch; cases exec (branchCmd d) <;> rfl

@[simp] theorem updateGitBranch_previousDir (exec : Exec) (st : AppState) (d : String) :
    (updateGitBranch exec st d).previousDir = st.previousDir := by
  unfold updateGitBranch; cases exec (branchCmd d) <;> rfl

@[simp] theorem updateGitBranch_output (exec : Exec) (st : AppState) (d : String) :
    (updateGitBranch exec st d).output = st.output := by
  unfold updateGitBranch; cases exec (branchCmd d) <;> rfl

@[simp] theorem updateGitBranch_input (exec : Exec) (st : AppState) (d : String) :
    (updateGitBranch exec st d).input = st.input := by
  unfold updateGitBranch; cases exec (branchCmd d) <;> rfl

@[simp] theorem updateGitBranch_commandHistory (exec : Exec) (st : AppState) (d : String) :
    (updateGitBranch exec st d).commandHistory = st.commandHistory := by
  unfold updateGitBranch; cases exec (branchCmd d) <;> rfl

@[simp] theorem updateGitBranch_commandLogs (exec : Exec) (st : AppState) (d : String) :
    (updateGitBranch exec st d).commandLogs = st.commandLogs := by
  unfold updateGitBranch; cases exec (branchCmd d) <;> rfl

/-- `addToHistory` changes only the history fields. -/
@[simp] theorem addToHistory_calls (st : AppState) (c : String) :
    (addToHistory st c).calls = st.calls := by
  unfold addToHistory; split <;> rfl

@[simp] theorem addToHistory_currentDir (st : AppState) (c : String) :
    (addToHistory st c).currentDir = st.currentDir := by
  unfold addToHistory; split <;> rfl

@[simp] theorem addToHistory_previousDir (st : AppState) (c : String) :
    (addToHistory st c).previousDir = st.previousDir := by
  unfold addToHistory; split <;> rfl

@[simp] theorem addToHistory_gitBranch (st : AppState) (c : String) :
    (addToHistory st c).gitBranch = st.gitBranch := by
  unfold addToHistory; split <;> rfl

@[simp] theorem addToHistory_output (st : AppState) (c : String) :
    (addToHistory st c).output = st.output := by
  unfold addToHistory; split <;> rfl

@[simp] theorem addToHistory_input (st : AppState) (c : String) :
    (addToHistory st c).input = st.input := by
  unfold addToHistory; split <;> rfl

@[simp] theorem addToHistory_commandLogs (st : AppState) (c : String) :
    (addToHistory st c).commandLogs = st.commandLogs := by
  unfold addToHistory; split <;> rfl

theorem errorCount_append (a b : List TerminalLine) :
    errorCount (a ++ b) = errorCount a + errorCount b := by
  unfold errorCount
  exact List.countP_append _ a b

theorem aliasExpand_empty : aliasExpand "" = "" := by decide

/-! ## C1 -/

/-- C1: for every submission classified as an explicit directory change
(the alias-expanded trimmed line starts with `cd ` or is exactly `cd`)
that reaches verification (for target `-` a previous directory is
recorded) and whose verified resolution fails, the session state
(`currentDir`, `previousDir`, `gitBranch`) is unchanged and exactly one
error-type transcript line is appended (with a command echo and a blank
output line around it). -/
theorem c1_cd_failure_state_preserved (exec : Exec) (now : Int) (st : AppState)
    (cmd msg : String)
    (hcd : jsStartsWith (aliasExpand (jsTrim cmd)) "cd " = true ∨
      aliasExpand (jsTrim cmd) = "cd")
    (hprev : cdTarget (aliasExpand (jsTrim cmd)) = "-" → st.previousDir ≠ "")
    (hfail : exec (cdAttemptCmd st (cdTarget (aliasExpand (jsTrim cmd)))) = .error msg) :
    (executeCommand exec now st cmd).currentDir = st.currentDir ∧
    (executeCommand exec now st cmd).previousDir = st.previousDir ∧
    (executeCommand exec now st cmd).gitBranch = st.gitBranch ∧
    (executeCommand exec now st cmd).output =
      st.output ++
        [commandLine st cmd,
         { type := .error
           text := s!"cd: {cdDisplayTarget st.previousDir (cdTarget (aliasExpand (jsTrim cmd)))}: No such file or directory" },
         { type := .output, text := "" }] ∧
    errorCount (executeCommand exec now st cmd).output = errorCount st.output + 1 := by
  have hne : jsTrim cmd ≠ "" := by
    intro h
    rw [h, aliasExpand_empty] at hcd
    rcases hcd with h1 | h1
    · exact absurd h1 (by decide)
    · exact absurd h1 (by decide)
  have hguard : ¬(cdTarget (aliasExpand (jsTrim cmd)) = "-" ∧ st.previousDir = "") := by
    rintro ⟨h1, h2⟩
    exact hprev h1 h2
  unfold executeCommand
  rw [if_neg hne, if_pos hcd]
  unfold handleCd
  rw [if_neg hguard]
  unfold cdVerify
  rw [hfail]
  unfold addToHistory
  rw [if_neg (jsTrim_jsTrim_ne hne)]
  refine ⟨by simp [logCommand], by simp [logCommand], by simp [logCommand],
    by simp [logCommand], ?_⟩
  simp [logCommand, errorCount_append, errorCount, List.countP_cons, commandLine]

/-- Witness for C1 at a concrete failing navigation. -/
theorem c1_witness :
    (executeCommand (fun _ => .error "boom") 0
        { initialAppState with currentDir := "/a", previousDir := "/b" }
        "cd nope").currentDir = "/a" ∧
    errorCount (executeCommand (fun _ => .error "boom") 0
        { initialAppState with currentDir := "/a", previousDir := "/b" }
        "cd nope").output = 1 := by
  have h := c1_cd_failure_state_preserved (fun _ => .error "boom") 0
    { initialAppState with currentDir := "/a", previousDir := "/b" } "cd nope" "boom"
    (by decide) (by decide) (by rfl)
  exact ⟨h.1, by rw [h.2.2.2.2]; decide⟩

/-! ## C2 -/

/-- C2 counterexample: with an executor on which initialisation succeeds
(home `/home/u`), `initDir` seeds `previousDir` with the home directory,
so submitting `cd -` at session start performs a successful navigation —
no error line at all is produced — refuting the claim that it yields a
reported NoPreviousDirectory error. -/
theorem c2_counterexample :
    (initDir execC2 initialAppState).previousDir = "/home/u" ∧
    (executeCommand execC2 0 (initDir execC2 initialAppState) "cd -").currentDir = "/home/u" ∧
    errorCount (executeCommand execC2 0 (initDir execC2 initialAppState) "cd -").output = 0 := by
  refine ⟨by decide, by decide, by decide⟩

/-- C2 amended: the reported `cd: OLDPWD not set` condition (with the
session state unchanged and the executor never consulted) occurs exactly
when `previousDir` is empty; after a *successful* initialisation,
`previousDir` is seeded with the home directory, so `cd -` at session
start is a (successful) navigation rather than an error. -/
theorem c2_amended :
    (∀ (exec : Exec) (now : Int) (st : AppState), st.previousDir = "" →
      (executeCommand exec now st "cd -").currentDir = st.currentDir ∧
      (executeCommand exec now st "cd -").previousDir = st.previousDir ∧
      (executeCommand exec now st "cd -").gitBranch = st.gitBranch ∧
      (executeCommand exec now st "cd -").output =
        st.output ++ [commandLine st "cd -", { type := .error, text := "cd: OLDPWD not set" }] ∧
      (executeCommand exec now st "cd -").calls = st.calls) ∧
    (∀ (exec : Exec) (d : String), exec "cd ~ && pwd" = .ok d →
      (initDir exec initialAppState).previousDir = stripAnsi (jsTrim d) ∧
      (initDir exec initialAppState).currentDir = stripAnsi (jsTrim d)) := by
  constructor
  · intro exec now st hprev
    have hne : jsTrim "cd -" ≠ "" := by decide
    unfold executeCommand
    rw [if_neg hne, if_pos (show jsStartsWith (aliasExpand (jsTrim "cd -")) "cd " = true ∨
      aliasExpand (jsTrim "cd -") = "cd" from by decide)]
    unfold handleCd
    rw [if_pos ⟨show cdTarget (aliasExpand (jsTrim "cd -")) = "-" from by decide, hprev⟩]
    unfold addToHistory
    rw [if_neg (jsTrim_jsTrim_ne hne)]
    exact ⟨by simp [logCommand], by simp [logCommand], by simp [logCommand],
      by simp [logCommand], by simp [logCommand]⟩
  · intro exec d h
    unfold initDir
    rw [h]
    constructor <;> simp

/-- Witness for C2's amended statement at concrete inputs. -/
theorem c2_amended_witness :
    (executeCommand (fun _ => .error "fail") 0 initialAppState "cd -").currentDir = "" ∧
    (initDir execC2 initialAppState).previousDir = "/home/u" := by
  constructor
  · simpa using (c2_amended.1 (fun _ => .error "fail") 0 initialAppState rfl).1
  · have h := (c2_amended.2 execC2 "/home/u" (by rfl)).1
    rw [h]; decide

/-! ## C3 -/

/-- C3 counterexample: in a state browsing at cursor position `1`,
directly editing the input line resets the cursor to `-1` (not-browsing),
and the next recall-previous returns the most recent entry `b` instead of
continuing from the old position — refuting the claim that editing
leaves the cursor position unchanged. -/
theorem c3_counterexample :
    (onChange stC3 "ab").historyIndex ≠ stC3.historyIndex ∧
    (onChange stC3 "ab").historyIndex = -1 ∧
    (handleKeyDown (fun _ => .error "fail") 0 (onChange stC3 "ab") .arrowUp).input = "b" := by
  refine ⟨by decide, by decide, by decide⟩

/-- C3 amended: while the history cursor is active, directly editing the
input line stores the edited text and resets the cursor to `-1`
(not-browsing), leaving the snapshot and the history collection
untouched; a subsequent recall-previous therefore starts over from the
most recent entry. -/
theorem c3_amended (st : AppState) (v : String) (h : st.historyIndex ≠ -1) :
    (onChange st v).historyIndex = -1 ∧
    (onChange st v).input = v ∧
    (onChange st v).tempInput = st.tempInput ∧
    (onChange st v).commandHistory = st.commandHistory := by
  unfold onChange
  rw [if_pos (by simpa using h)]
  exact ⟨rfl, rfl, rfl, rfl⟩

/-- Witness for C3's amended statement at a concrete browsing state. -/
theorem c3_amended_witness :
    (onChange stC3 "ab").historyIndex = -1 ∧ (onChange stC3 "ab").input = "ab" := by
  have h := c3_amended stC3 "ab" (by decide)
  exact ⟨h.1, h.2.1⟩

/-! ## Split/join lemmas -/

theorem splitOnCharList_cons_nil_eq (sep c : Char) (cs : List Char)
    (hs : splitOnCharList sep cs = []) : splitOnCharList sep (c :: cs) = [[c]] := by
  unfold splitOnCharList
  rw [hs]

theorem splitOnCharList_cons_eq (sep c : Char) (cs g : List Char) (gs : List (List Char))
    (hs : splitOnCharList sep cs = g :: gs) :
    splitOnCharList sep (c :: cs) = if c = sep then [] :: g :: gs else (c :: g) :: gs := by
  unfold splitOnCharList
  rw [hs]

theorem splitOnCharList_ne_nil (sep : Char) (l : List Char) : splitOnCharList sep l ≠ [] := by
  cases l with
  | nil => simp [splitOnCharList]
  | cons c cs =>
    cases hs : splitOnCharList sep cs with
    | nil => rw [splitOnCharList_cons_nil_eq sep c cs hs]; simp
    | cons g gs =>
      rw [splitOnCharList_cons_eq sep c cs g gs hs]
      by_cases hc : c = sep
      · rw [if_pos hc]; simp
      · rw [if_neg hc]; simp

theorem splitOnCharList_no_sep (sep : Char) (l : List Char) (h : ∀ c ∈ l, c ≠ sep) :
    splitOnCharList sep l = [l] := by
  induction l with
  | nil => rfl
  | cons c cs ih =>
    rw [splitOnCharList_cons_eq sep c cs cs []
      (ih (fun x hx => h x (List.mem_cons_of_mem _ hx)))]
    rw [if_neg (h c (List.mem_cons_self _ _))]

theorem joinWithChar_splitOnCharList (sep : Char) (l : List Char) :
    joinWithChar sep (splitOnCharList sep l) = l := by
  induction l with
  | nil => rfl
  | cons c cs ih =>
    cases hs : splitOnCharList sep cs with
    | nil => exact absurd hs (splitOnCharList_ne_nil sep cs)
    | cons g gs =>
      rw [hs] at ih
      rw [splitOnCharList_cons_eq sep c cs g gs hs]
      by_cases hc : c = sep
      · rw [if_pos hc]
        subst hc
        show [] ++ c :: joinWithChar c (g :: gs) = c :: cs
        rw [ih]; rfl
      · rw [if_neg hc]
        cases gs with
        | nil =>
          show c :: g = c :: cs
          simpa [joinWithChar] using congrArg (c :: ·) ih
        | cons g2 gs2 =>
          show (c :: g) ++ sep :: joinWithChar sep (g2 :: gs2) = c :: cs
          have ih2 : g ++ sep :: joinWithChar sep (g2 :: gs2) = cs := ih
          rw [← ih2]; rfl

theorem splitOnCharList_append (sep : Char) (b r : List Char) (hb : ∀ c ∈ b, c ≠ sep) :
    splitOnCharList sep (b ++ sep :: r) = b :: splitOnCharList sep r := by
  induction b with
  | nil =>
    cases hs : splitOnCharList sep r with
    | nil => exact absurd hs (splitOnCharList_ne_nil sep r)
    | cons g gs =>
      rw [show ([] : List Char) ++ sep :: r = sep :: r from rfl]
      rw [splitOnCharList_cons_eq sep sep r g gs hs, if_pos rfl]
  | cons c b' ih =>
    have hb' : ∀ x ∈ b', x ≠ sep := fun x hx => hb x (List.mem_cons_of_mem _ hx)
    have hc : c ≠ sep := hb c (List.mem_cons_self _ _)
    show splitOnCharList sep (c :: (b' ++ sep :: r)) = (c :: b') :: splitOnCharList sep r
    cases hs : splitOnCharList sep r with
    | nil => exact absurd hs (splitOnCharList_ne_nil sep r)
    | cons g gs =>
      rw [hs] at ih
      rw [splitOnCharList_cons_eq sep c (b' ++ sep :: r) b' (g :: gs) (ih hb')]
      rw [if_neg hc]

theorem splitOnChar_eq_cons (k rest : String) (hsp : ∀ c ∈ k.data, c ≠ ' ') :
    splitOnChar ' ' (k ++ " " ++ rest) = k :: splitOnChar ' ' rest := by
  unfold splitOnChar
  have hdata : (k ++ " " ++ rest).data = k.data ++ ' ' :: rest.data := by
    rw [data_append, data_append]
    simp
  rw [hdata, splitOnCharList_append ' ' k.data rest.data hsp]
  simp [mk_data]

theorem mk_append_mk (a b : List Char) : String.mk a ++ String.mk b = String.mk (a ++ b) := rfl

theorem joinSpace_map_mk (groups : List (List Char)) :
    joinSpace (groups.map String.mk) = String.mk (joinWithChar ' ' groups) := by
  induction groups with
  | nil => rfl
  | cons g gs ih =>
    cases gs with
    | nil => rfl
    | cons g2 gs2 =>
      show String.mk g ++ " " ++ joinSpace ((g2 :: gs2).map String.mk) = _
      rw [ih]
      show String.mk g ++ String.mk [' '] ++ String.mk (joinWithChar ' ' (g2 :: gs2)) = _
      rw [mk_append_mk, mk_append_mk]
      exact congrArg String.mk (by simp [joinWithChar])

theorem joinSpace_splitOnChar (s : String) : joinSpace (splitOnChar ' ' s) = s := by
  unfold splitOnChar
  rw [joinSpace_map_mk, joinWithChar_splitOnCharList]

/-! ## Lookup lemmas -/

theorem lookup_eq_none_of_ne (s : String) (l : List (String × String))
    (h : ∀ p ∈ l, p.1 ≠ s) : l.lookup s = none := by
  induction l with
  | nil => rfl
  | cons a t ih =>
    have hne : (s == a.1) = false :=
      beq_eq_false_iff_ne.mpr fun he => h a (List.mem_cons_self _ _) he.symm
    show List.lookup s (a :: t) = none
    rw [List.lookup]
    rw [hne]
    exact ih fun p hp => h p (List.mem_cons_of_mem _ hp)

theorem aliases_keys_short : ∀ p ∈ aliases, p.1.data.length ≤ 4 := by
  intro p hp
  have hall : aliases.all (fun p => p.1.data.length ≤ 4) = true := by decide
  exact of_decide_eq_true (List.all_eq_true.mp hall p hp)

theorem aliases_lookup_long (s : String) (h : 4 < s.data.length) :
    aliases.lookup s = none := by
  apply lookup_eq_none_of_ne
  intro p hp he
  have := aliases_keys_short p hp
  rw [he] at this
  omega

theorem dots_data (n : Nat) : (dots n).data = List.replicate n '.' := rfl

/-! ## C4 -/

/-- C4 counterexample: five directories deep, with an executor on which
the four-levels-up target exists (`cd "/a/b/c/d/e" && cd "../../../.." &&
pwd` resolves to `/a`), submitting five dots (`.....`) does not navigate
up four levels: no dot alias matches, the speculative jump and the
ordinary execution both fail, and `currentDir` stays `/a/b/c/d/e` —
refuting the claim at N = 5. -/
theorem c4_counterexample :
    execC4 "cd \"/a/b/c/d/e\" && cd \"../../../..\" && pwd" = .ok "/a" ∧
    aliasExpand (dots 5) = dots 5 ∧
    (executeCommand execC4 0 stC4 (dots 5)).currentDir = "/a/b/c/d/e" ∧
    (executeCommand execC4 0 stC4 (dots 5)).currentDir ≠ "/a" := by
  refine ⟨by rfl, by decide, by decide, by decide⟩

/-- C4 amended: only for N ∈ {2, 3, 4} does a line of exactly N dots
alias-expand to an explicit directory change going up N − 1 parent
levels; for N = 1 and N ≥ 5 no dot shortcut exists and the line is left
unchanged by alias expansion (falling through to implicit-jump /
ordinary-command handling). -/
theorem c4_amended (n : Nat) (h : 1 ≤ n) :
    (2 ≤ n ∧ n ≤ 4 → aliasExpand (dots n) = "cd " ++ upPath (n - 1)) ∧
    (n = 1 ∨ 5 ≤ n → aliasExpand (dots n) = dots n) := by
  constructor
  · rintro ⟨h2, h4⟩
    interval_cases n <;> decide
  · rintro (h1 | h5)
    · subst h1; decide
    · have hlen : 4 < (dots n).data.length := by
        rw [dots_data, List.length_replicate]; omega
      have hnosep : ∀ c ∈ (dots n).data, c ≠ ' ' := by
        rw [dots_data]
        intro c hc
        rw [List.eq_of_mem_replicate hc]
        decide
      unfold aliasExpand
      unfold splitOnChar
      rw [splitOnCharList_no_sep ' ' (dots n).data hnosep]
      simp only [List.map_cons, List.map_nil, List.headD, mk_data]
      rw [aliases_lookup_long (dots n) hlen]

/-- Witness for C4's amended statement at N = 3 and N = 5. -/
theorem c4_amended_witness :
    aliasExpand (dots 3) = "cd " ++ upPath 2 ∧ aliasExpand (dots 5) = dots 5 := by
  exact ⟨(c4_amended 3 (by decide)).1 (by decide), (c4_amended 5 (by decide)).2 (Or.inr (by decide))⟩

/-! ## Pattern lemmas -/

theorem isDirPattern_no_space {t : String} (h : isDirPattern t = true) :
    ∀ c ∈ t.data, c ≠ ' ' := by
  intro c hc he
  unfold isDirPattern at h
  obtain ⟨-, h2⟩ := Bool.and_eq_true_iff.mp h
  have h3 := List.all_eq_true.mp h2 c hc
  rw [he] at h3
  exact absurd h3 (by decide)

theorem jsStartsWith_take {s p : String} (h : jsStartsWith s p = true) :
    s.data.take p.data.length = p.data := eq_of_beq h

theorem not_startsWith_cd_of_no_space {t : String} (h : ∀ c ∈ t.data, c ≠ ' ') :
    jsStartsWith t "cd " = false := by
  cases hjs : jsStartsWith t "cd " with
  | false => rfl
  | true =>
    exfalso
    have heq : t.data.take 3 = ['c', 'd', ' '] := jsStartsWith_take hjs
    have hm : ' ' ∈ t.data := List.take_subset 3 t.data (by rw [heq]; simp)
    exact h ' ' hm rfl

/-! ## C5 -/

/-- C5 counterexample: `clear` is a single token of letters and, per the
executor, a subdirectory `clear` exists under the current directory `/h`;
yet submitting `clear` is intercepted by the built-in handler — the
executor is never consulted, and `currentDir` does not change to
`/h/clear` — refuting the claim as stated. -/
theorem c5_counterexample :
    execC5 (specCmd stC5.currentDir "clear") = .ok "/h/clear" ∧
    isDirPattern (aliasExpand (jsTrim "clear")) = true ∧
    (executeCommand execC5 0 stC5 "clear").currentDir = "/h" ∧
    (executeCommand execC5 0 stC5 "clear").currentDir ≠ "/h/clear" ∧
    (executeCommand execC5 0 stC5 "clear").calls = [] := by
  refine ⟨by rfl, by decide, by decide, by decide, by decide⟩

/-- C5 amended: a submitted line that (after alias handling) is a single
token of letters, digits, `.`, `_`, `-` *and is not one of the internally
handled commands* (`cd`, `clear`, `stats`, `performance`, `history`,
`export-logs`, nor starting with `logs`) is speculatively resolved as a
subdirectory of `currentDir`: on success `currentDir` becomes the
resolved directory and no ordinary-command output line is produced; on
failure the submission falls through to ordinary command execution. -/
theorem c5_amended (exec : Exec) (now : Int) (st : AppState) (cmd : String)
    (hpat : isDirPattern (aliasExpand (jsTrim cmd)) = true)
    (h1 : aliasExpand (jsTrim cmd) ≠ "cd")
    (h2 : aliasExpand (jsTrim cmd) ≠ "clear")
    (h3 : aliasExpand (jsTrim cmd) ≠ "stats")
    (h4 : aliasExpand (jsTrim cmd) ≠ "performance")
    (h5 : aliasExpand (jsTrim cmd) ≠ "export-logs")
    (h6 : aliasExpand (jsTrim cmd) ≠ "history")
    (h7 : jsStartsWith (aliasExpand (jsTrim cmd)) "logs" = false) :
    (∀ r, exec (specCmd st.currentDir (aliasExpand (jsTrim cmd))) = .ok r →
      (executeCommand exec now st cmd).currentDir = stripAnsi (jsTrim r) ∧
      (executeCommand exec now st cmd).previousDir = st.currentDir ∧
      (executeCommand exec now st cmd).output =
        st.output ++ [commandLine st cmd, { type := .output, text := "" }] ∧
      (executeCommand exec now st cmd).input = "") ∧
    (∀ e, exec (specCmd st.currentDir (aliasExpand (jsTrim cmd))) = .error e →
      executeCommand exec now st cmd =
        ordinaryExecute exec now st
          { st with
            commandStartTime := now
            commandHistory := addToHistoryList st.commandHistory (jsTrim cmd)
            historyIndex := -1
            tempInput := ""
            calls := st.calls ++ [specCmd st.currentDir (aliasExpand (jsTrim cmd))] }
          cmd (aliasExpand (jsTrim cmd))) := by
  have hne : jsTrim cmd ≠ "" := by
    intro h
    rw [h, aliasExpand_empty] at hpat
    exact absurd hpat (by decide)
  have hnosp := isDirPattern_no_space hpat
  have hcd : ¬(jsStartsWith (aliasExpand (jsTrim cmd)) "cd " = true ∨
      aliasExpand (jsTrim cmd) = "cd") := by
    rintro (hx | hx)
    · rw [not_startsWith_cd_of_no_space hnosp] at hx
      exact Bool.false_ne_true hx
    · exact h1 hx
  have hst : ¬(aliasExpand (jsTrim cmd) = "stats" ∨
      aliasExpand (jsTrim cmd) = "performance") := by
    rintro (hx | hx)
    · exact h3 hx
    · exact h4 hx
  have hlogs : ¬(jsStartsWith (aliasExpand (jsTrim cmd)) "logs" = true) := by
    rw [h7]; exact Bool.false_ne_true
  have hexp : ¬(aliasExpand (jsTrim cmd) = "export logs" ∨
      aliasExpand (jsTrim cmd) = "export-logs") := by
    rintro (hx | hx)
    · have hm : ' ' ∈ (aliasExpand (jsTrim cmd)).data := by rw [hx]; decide
      exact hnosp ' ' hm rfl
    · exact h5 hx
  unfold executeCommand
  rw [if_neg hne, if_neg hcd, if_neg h2, if_neg hst, if_neg hlogs, if_neg hexp,
    if_neg h6, if_pos hpat]
  unfold addToHistory
  rw [if_neg (jsTrim_jsTrim_ne hne)]
  constructor
  · intro r hr
    simp only [hr]
    exact ⟨by simp [logCommand], by simp [logCommand], by simp [logCommand],
      by simp [logCommand]⟩
  · intro e he
    simp only [he]

/-- Witness for C5's amended statement: `Desktop` resolves and becomes the
current directory. -/
theorem c5_amended_witness :
    (executeCommand execC5b 0 stC5 "Desktop").currentDir = "/h/Desktop" := by
  have h := (c5_amended execC5b 0 stC5 "Desktop" (by decide) (by decide) (by decide)
    (by decide) (by decide) (by decide) (by decide) (by decide)).1 "/h/Desktop" (by rfl)
  rw [h.1]; decide

/-! ## C6 -/

/-- One `cd -` submission from a state whose `previousDir` is `X` (with
`X` resolvable to itself and already clean) swaps the two directories. -/
theorem cd_dash_swap (exec : Exec) (now : Int) (X Y : String)
    (hX : X ≠ "") (hexX : exec (cdQuoted X) = .ok X) (hsX : stripAnsi (jsTrim X) = X)
    (st : AppState) (hcur : st.currentDir = Y) (hprev : st.previousDir = X) :
    (executeCommand exec now st "cd -").currentDir = X ∧
    (executeCommand exec now st "cd -").previousDir = Y := by
  have hne : jsTrim "cd -" ≠ "" := by decide
  unfold executeCommand
  rw [if_neg hne, if_pos (show jsStartsWith (aliasExpand (jsTrim "cd -")) "cd " = true ∨
    aliasExpand (jsTrim "cd -") = "cd" from by decide)]
  unfold handleCd
  rw [if_neg (show ¬(cdTarget (aliasExpand (jsTrim "cd -")) = "-" ∧ st.previousDir = "") from by
    rintro ⟨-, h⟩
    exact hX (hprev ▸ h))]
  unfold addToHistory
  rw [if_neg (jsTrim_jsTrim_ne hne)]
  unfold cdVerify
  have hattempt : cdAttemptCmd st (cdTarget (aliasExpand (jsTrim "cd -"))) = cdQuoted X := by
    unfold cdAttemptCmd
    rw [if_pos (show cdTarget (aliasExpand (jsTrim "cd -")) = "-" from by decide), hprev]
  simp only [hattempt, hexX]
  constructor
  · simp [logCommand, hsX]
  · simp [logCommand, hcur]

/-- C6: after successfully navigating from A to B (state: `currentDir =
B`, `previousDir = A`), with an executor that resolves each of the two
directories to itself, every `cd -` submission swaps the two: after n
repetitions `currentDir` is B for even n and A for odd n (so the first
`cd -` returns to A, the second to B, and so on indefinitely). -/
theorem c6_cd_dash_swap_iterate (exec : Exec) (now : Int) (A B : String) (st : AppState)
    (hA : A ≠ "") (hB : B ≠ "")
    (hexA : exec (cdQuoted A) = .ok A) (hexB : exec (cdQuoted B) = .ok B)
    (hsA : stripAnsi (jsTrim A) = A) (hsB : stripAnsi (jsTrim B) = B)
    (hcur : st.currentDir = B) (hprev : st.previousDir = A) (n : Nat) :
    ((fun s => executeCommand exec now s "cd -")^[n] st).currentDir =
      (if n % 2 = 0 then B else A) ∧
    ((fun s => executeCommand exec now s "cd -")^[n] st).previousDir =
      (if n % 2 = 0 then A else B) := by
  induction n with
  | zero => simp [hcur, hprev]
  | succ k ih =>
    rw [Function.iterate_succ_apply']
    by_cases hk : k % 2 = 0
    · rw [if_pos hk, if_pos hk] at ih
      have hstep := cd_dash_swap exec now A B hA hexA hsA _ ih.1 ih.2
      have hk1 : ¬((k + 1) % 2 = 0) := by omega
      rw [if_neg hk1, if_neg hk1]
      exact hstep
    · rw [if_neg hk, if_neg hk] at ih
      have hstep := cd_dash_swap exec now B A hB hexB hsB _ ih.1 ih.2
      have hk1 : (k + 1) % 2 = 0 := by omega
      rw [if_pos hk1, if_pos hk1]
      exact hstep

/-- Witness for C6 on the concrete pair `/a`, `/b`. -/
theorem c6_witness :
    ((fun s => executeCommand execC6 0 s "cd -")^[1] stC6).currentDir = "/a" ∧
    ((fun s => executeCommand execC6 0 s "cd -")^[2] stC6).currentDir = "/b" ∧
    ((fun s => executeCommand execC6 0 s "cd -")^[2] stC6).previousDir = "/a" := by
  have h1 := c6_cd_dash_swap_iterate execC6 0 "/a" "/b" stC6 (by decide) (by decide)
    (by rfl) (by rfl) (by decide) (by decide) (by decide) (by decide) 1
  have h2 := c6_cd_dash_swap_iterate execC6 0 "/a" "/b" stC6 (by decide) (by decide)
    (by rfl) (by rfl) (by decide) (by decide) (by decide) (by decide) 2
  refine ⟨by simpa using h1.1, by simpa using h2.1, by simpa using h2.2⟩

/-! ## C7 -/

theorem splitOnChar_ne_nil (sep : Char) (s : String) : splitOnChar sep s ≠ [] := by
  unfold splitOnChar
  intro h
  exact splitOnCharList_ne_nil sep s.data (List.map_eq_nil_iff.mp h)

/-- C7: alias expansion replaces exactly the leading space-delimited
token when it matches an alias key (alias keys contain no spaces),
appending the rest of the line unchanged, and the substituted text is
not re-expanded (a single lookup is performed — e.g. `ll /tmp` becomes
`ls -la /tmp`, whose new leading token `ls` is itself an alias key yet
stays as written). -/
theorem c7_alias_expansion (k v rest : String)
    (hk : aliases.lookup k = some v) (hsp : ∀ c ∈ k.data, c ≠ ' ') :
    aliasExpand (k ++ " " ++ rest) = v ++ " " ++ rest ∧
    aliasExpand "ll /tmp" = "ls -la /tmp" ∧
    aliasExpand "ll /tmp" ≠ "ls --color=auto -la /tmp" := by
  refine ⟨?_, by decide, by decide⟩
  unfold aliasExpand
  rw [splitOnChar_eq_cons k rest hsp]
  show (match aliases.lookup ((k :: splitOnChar ' ' rest).headD "") with
    | some expansion => joinSpace (expansion :: (k :: splitOnChar ' ' rest).tail)
    | none => k ++ " " ++ rest) = v ++ " " ++ rest
  simp only [List.headD, List.tail, hk]
  cases hs : splitOnChar ' ' rest with
  | nil => exact absurd hs (splitOnChar_ne_nil ' ' rest)
  | cons g gs =>
    show v ++ " " ++ joinSpace (g :: gs) = v ++ " " ++ rest
    rw [← hs, joinSpace_splitOnChar]

/-- Witness for C7 at the alias `ll` with argument `/tmp`. -/
theorem c7_witness : aliasExpand ("ll" ++ " " ++ "/tmp") = "ls -la" ++ " " ++ "/tmp" :=
  (c7_alias_expansion "ll" "ls -la" "/tmp" (by rfl) (by decide)).1

/-! ## C8 -/

/-- `ArrowUp` when not browsing: snapshot the live input, move the cursor
to the most recent entry reachable. -/
theorem arrowUp_fresh (exec : Exec) (now : Int) (st : AppState)
    (hlen : ¬st.commandHistory.length = 0) (hidx : st.historyIndex = -1) :
    handleKeyDown exec now st .arrowUp =
      { st with
        tempInput := st.input
        historyIndex := min (st.historyIndex + 1) ((st.commandHistory.length : Int) - 1)
        input := histGet st.commandHistory
          ((st.commandHistory.length : Int) - 1 -
            min (st.historyIndex + 1) ((st.commandHistory.length : Int) - 1)) } := by
  unfold handleKeyDown
  rw [if_neg hlen, if_pos hidx]

/-- `ArrowUp` while browsing: move the cursor one step older, clamped. -/
theorem arrowUp_browsing (exec : Exec) (now : Int) (st : AppState)
    (hlen : ¬st.commandHistory.length = 0) (hidx : ¬st.historyIndex = -1) :
    handleKeyDown exec now st .arrowUp =
      { st with
        historyIndex := min (st.historyIndex + 1) ((st.commandHistory.length : Int) - 1)
        input := histGet st.commandHistory
          ((st.commandHistory.length : Int) - 1 -
            min (st.historyIndex + 1) ((st.commandHistory.length : Int) - 1)) } := by
  unfold handleKeyDown
  rw [if_neg hlen, if_neg hidx]

/-- `ArrowDown` stepping past the most recent entry: exit browsing and
restore the snapshot. -/
theorem arrowDown_exit (exec : Exec) (now : Int) (st : AppState)
    (hidx : ¬st.historyIndex = -1) (hnew : st.historyIndex - 1 = -1) :
    handleKeyDown exec now st .arrowDown =
      { st with historyIndex := -1, input := st.tempInput } := by
  simp only [handleKeyDown]
  rw [if_neg hidx, if_pos hnew]

/-- `ArrowDown` to a newer entry. -/
theorem arrowDown_step (exec : Exec) (now : Int) (st : AppState)
    (hidx : ¬st.historyIndex = -1) (hnew : ¬st.historyIndex - 1 = -1) :
    handleKeyDown exec now st .arrowDown =
      { st with
        historyIndex := st.historyIndex - 1
        input := histGet st.commandHistory
          ((st.commandHistory.length : Int) - 1 - (st.historyIndex - 1)) } := by
  simp only [handleKeyDown]
  rw [if_neg hidx, if_neg hnew]

theorem jsSliceFrom_neg100 {α : Type} (l : List α) :
    jsSliceFrom l (-100) = l.drop (l.length - 100) := by
  simp only [jsSliceFrom]
  rw [if_pos (by norm_num : (-100 : Int) < 0)]
  rcases le_or_lt l.length 100 with h | h
  · have h0 : (l.length : Int) + (-100) ≤ 0 := by
      have : (l.length : Int) ≤ 100 := by exact_mod_cast h
      omega
    rw [max_eq_right h0]
    have h1 : l.length - 100 = 0 := by omega
    rw [h1]
    rfl
  · have h0 : (0 : Int) ≤ (l.length : Int) + (-100) := by
      have : (100 : Int) < l.length := by exact_mod_cast h
      omega
    rw [max_eq_left h0]
    congr 1
    omega

theorem addToHistoryList_eq (prev : List String) (cmd : String) :
    addToHistoryList prev cmd =
      (prev.filter (fun c => c ≠ cmd) ++ [cmd]).drop
        ((prev.filter (fun c => c ≠ cmd)).length + 1 - 100) := by
  unfold addToHistoryList
  rw [jsSliceFrom_neg100]
  simp

/-- Recording a fresh command while under capacity simply appends it. -/
theorem addToHistoryList_of_not_mem (prev : List String) (cmd : String)
    (hm : cmd ∉ prev) (hlen : prev.length + 1 ≤ 100) :
    addToHistoryList prev cmd = prev ++ [cmd] := by
  rw [addToHistoryList_eq]
  have hf : prev.filter (fun c => c ≠ cmd) = prev := by
    rw [List.filter_eq_self]
    intro a ha
    simp only [ne_eq, decide_not, Bool.not_eq_eq_eq_not, Bool.not_true, decide_eq_false_iff_not]
    exact fun he => hm (he ▸ ha)
  rw [hf]
  have h0 : prev.length + 1 - 100 = 0 := by omega
  rw [h0, List.drop_zero]

/-- C8: after recording three distinct commands c₁, c₂, c₃ (in that
order, starting from an empty history) with live input in the buffer,
three recall-previous steps return c₃, c₂, c₁; a fourth recall-previous
at the oldest entry is a no-op (the state is unchanged); and three
recall-next steps then return c₂, c₃, and finally restore the
snapshotted live input with the cursor back at not-browsing. -/
theorem c8_history_recall (exec : Exec) (now : Int) (st0 st : AppState)
    (c1 c2 c3 live : String)
    (h0 : st0.commandHistory = [])
    (ht1 : jsTrim c1 ≠ "") (ht2 : jsTrim c2 ≠ "") (ht3 : jsTrim c3 ≠ "")
    (h12 : c1 ≠ c2) (h13 : c1 ≠ c3) (h23 : c2 ≠ c3)
    (hst : st = { addToHistory (addToHistory (addToHistory st0 c1) c2) c3 with input := live })
    (u1 u2 u3 u4 d1 d2 d3 : AppState)
    (hu1 : u1 = handleKeyDown exec now st .arrowUp)
    (hu2 : u2 = handleKeyDown exec now u1 .arrowUp)
    (hu3 : u3 = handleKeyDown exec now u2 .arrowUp)
    (hu4 : u4 = handleKeyDown exec now u3 .arrowUp)
    (hd1 : d1 = handleKeyDown exec now u3 .arrowDown)
    (hd2 : d2 = handleKeyDown exec now d1 .arrowDown)
    (hd3 : d3 = handleKeyDown exec now d2 .arrowDown) :
    u1.input = c3 ∧ u2.input = c2 ∧ u3.input = c1 ∧ u4 = u3 ∧
    d1.input = c2 ∧ d2.input = c3 ∧ d3.input = live ∧ d3.historyIndex = -1 := by
  have hstA : st = { st0 with
      commandHistory := [c1, c2, c3], historyIndex := -1, tempInput := "", input := live } := by
    rw [hst]
    unfold addToHistory
    rw [if_neg ht1, if_neg ht2, if_neg ht3]
    simp only [h0]
    rw [addToHistoryList_of_not_mem [] c1 (List.not_mem_nil c1) (by simp)]
    simp only [List.nil_append]
    rw [addToHistoryList_of_not_mem [c1] c2 (by simp [Ne.symm h12]) (by simp)]
    simp only [List.cons_append, List.nil_append]
    rw [addToHistoryList_of_not_mem [c1, c2] c3
      (by simp [Ne.symm h13, Ne.symm h23]) (by simp)]
    simp only [List.cons_append, List.nil_append]
  have hU1 : u1 = { st0 with
      commandHistory := [c1, c2, c3], historyIndex := 0, tempInput := live, input := c3 } := by
    rw [hu1, hstA, arrowUp_fresh exec now _ (by simp) (by simp)]
    simp [histGet]
  have hU2 : u2 = { st0 with
      commandHistory := [c1, c2, c3], historyIndex := 1, tempInput := live, input := c2 } := by
    rw [hu2, hU1, arrowUp_browsing exec now _ (by simp) (by simp)]
    simp [histGet]
  have hU3 : u3 = { st0 with
      commandHistory := [c1, c2, c3], historyIndex := 2, tempInput := live, input := c1 } := by
    rw [hu3, hU2, arrowUp_browsing exec now _ (by simp) (by simp)]
    simp [histGet]
  have hU4 : u4 = u3 := by
    rw [hu4, hU3, arrowUp_browsing exec now _ (by simp) (by simp)]
    simp [histGet]
  have hD1 : d1 = { st0 with
      commandHistory := [c1, c2, c3], historyIndex := 1, tempInput := live, input := c2 } := by
    rw [hd1, hU3, arrowDown_step exec now _ (by simp) (by simp)]
    simp [histGet]
  have hD2 : d2 = { st0 with
      commandHistory := [c1, c2, c3], historyIndex := 0, tempInput := live, input := c3 } := by
    rw [hd2, hD1, arrowDown_step exec now _ (by simp) (by simp)]
    simp [histGet]
  have hD3 : d3 = { st0 with
      commandHistory := [c1, c2, c3], historyIndex := -1, tempInput := live, input := live } := by
    rw [hd3, hD2, arrowDown_exit exec now _ (by simp) (by simp)]
  exact ⟨by rw [hU1], by rw [hU2], by rw [hU3], hU4,
    by rw [hD1], by rw [hD2], by rw [hD3], by rw [hD3]⟩

/-- Witness for C8 on the concrete commands x, y, z with live input. -/
theorem c8_witness :
    (handleKeyDown (fun _ => .error "e") 0
      { addToHistory (addToHistory (addToHistory initialAppState "x") "y") "z" with
        input := "live" } .arrowUp).input = "z" := by
  have h := c8_history_recall (fun _ => .error "e") 0 initialAppState _ "x" "y" "z" "live"
    rfl (by decide) (by decide) (by decide) (by decide) (by decide) (by decide) rfl
    _ _ _ _ _ _ _ rfl rfl rfl rfl rfl rfl rfl
  exact h.1

/-! ## C9 -/

/-- C9: the history update keeps the collection duplicate-free and within
the fixed capacity of 100: starting from a duplicate-free history within
capacity, recording any command yields a duplicate-free history of at
most 100 entries whose most-recent entry is the command, containing it
exactly once; recording a command already present relocates it (the old
occurrence is filtered out and the command appended); and recording a
fresh command at full capacity evicts the oldest entry. -/
theorem c9_history_invariants (prev : List String) (cmd : String)
    (hnd : prev.Nodup) (hlen : prev.length ≤ 100) :
    (addToHistoryList prev cmd).Nodup ∧
    (addToHistoryList prev cmd).length ≤ 100 ∧
    (addToHistoryList prev cmd).getLast? = some cmd ∧
    (addToHistoryList prev cmd).count cmd = 1 ∧
    (cmd ∈ prev → addToHistoryList prev cmd = prev.filter (fun c => c ≠ cmd) ++ [cmd]) ∧
    (prev.length = 100 → cmd ∉ prev → addToHistoryList prev cmd = prev.drop 1 ++ [cmd]) := by
  have hEq := addToHistoryList_eq prev cmd
  set F := prev.filter (fun c => c ≠ cmd) with hF
  set k := F.length + 1 - 100 with hk
  have hkF : k ≤ F.length := by omega
  have hsplit : (F ++ [cmd]).drop k = F.drop k ++ [cmd] :=
    List.drop_append_of_le_length hkF
  have hcmdF : cmd ∉ F := by
    intro hm
    have := (List.mem_filter.mp hm).2
    simp at this
  have hcmdFk : cmd ∉ F.drop k := fun hm => hcmdF (List.drop_subset k F hm)
  rw [hEq, hsplit]
  refine ⟨?_, ?_, ?_, ?_, ?_, ?_⟩
  · have hFnd : F.Nodup := hnd.filter _
    have hFknd : (F.drop k).Nodup := (List.drop_sublist k F).nodup hFnd
    simp [List.nodup_append, hFknd, hcmdFk]
  · have h1 : (F.drop k).length = F.length - k := List.length_drop k F
    simp only [List.length_append, List.length_cons, List.length_nil, h1]
    omega
  · exact List.getLast?_concat _
  · rw [List.count_append]
    rw [List.count_eq_zero.mpr hcmdFk]
    simp
  · intro hm
    have hstrict : F.length < prev.length := by
      rcases Nat.lt_or_ge F.length prev.length with h | h
      · exact h
      · exfalso
        have heq : F.length = prev.length :=
          le_antisymm (List.length_filter_le _ _) h
        have hall := List.filter_length_eq_length.mp heq cmd hm
        simp at hall
    have hk0 : k = 0 := by omega
    rw [hk0, List.drop_zero]
  · intro h100 hnm
    have hFP : F = prev := by
      rw [hF, List.filter_eq_self]
      intro a ha
      simp only [ne_eq, decide_not, Bool.not_eq_eq_eq_not, Bool.not_true,
        decide_eq_false_iff_not]
      exact fun he => hnm (he ▸ ha)
    have hk1 : k = 1 := by rw [hk, hFP, h100]
    rw [hk1, hFP]

/-- Witness for C9 on a concrete two-entry history. -/
theorem c9_witness :
    (addToHistoryList ["a", "b"] "b").Nodup ∧
    addToHistoryList ["a", "b"] "b" = ["a", "b"] := by
  have h := c9_history_invariants ["a", "b"] "b" (by decide) (by decide)
  refine ⟨h.1, ?_⟩
  have := h.2.2.2.2.1 (by decide)
  rw [this]
  decide

/-! ## C10 -/

theorem str_eq_iff_data {s t : String} : s = t ↔ s.data = t.data :=
  ⟨congrArg _, fun h => by cases s; cases t; exact congrArg String.mk h⟩

theorem startsWith_logs_shape {t : String} (h : jsStartsWith t "logs" = true) :
    ∃ r, t.data = 'l' :: 'o' :: 'g' :: 's' :: r := by
  have heq : t.data.take 4 = ['l', 'o', 'g', 's'] := jsStartsWith_take h
  rcases hd : t.data with _ | ⟨a, _ | ⟨b, _ | ⟨c, _ | ⟨d, r⟩⟩⟩⟩ <;> rw [hd] at heq <;>
    simp_all

/-- C10: a submission whose alias-expanded trimmed text is exactly
`clear`, `history`, `stats`, `performance`, `export logs`, `export-logs`,
or begins with `logs`, is handled internally: the Command Executor is
never invoked (no call is recorded) and the session's directories are
untouched — it is neither executed nor treated as a directory jump, for
every executor (in particular even when a subdirectory of the same name
exists). -/
theorem c10_builtins_intercepted (exec : Exec) (now : Int) (st : AppState) (cmd : String)
    (h : aliasExpand (jsTrim cmd) = "clear" ∨ aliasExpand (jsTrim cmd) = "history" ∨
      aliasExpand (jsTrim cmd) = "stats" ∨ aliasExpand (jsTrim cmd) = "performance" ∨
      aliasExpand (jsTrim cmd) = "export logs" ∨ aliasExpand (jsTrim cmd) = "export-logs" ∨
      jsStartsWith (aliasExpand (jsTrim cmd)) "logs" = true) :
    (executeCommand exec now st cmd).calls = st.calls ∧
    (executeCommand exec now st cmd).currentDir = st.currentDir ∧
    (executeCommand exec now st cmd).previousDir = st.previousDir := by
  have hne : jsTrim cmd ≠ "" := by
    intro he
    rw [he, aliasExpand_empty] at h
    rcases h with h | h | h | h | h | h | h <;> exact absurd h (by decide)
  unfold executeCommand
  rw [if_neg hne]
  rcases h with h | h | h | h | h | h | h
  · rw [if_neg (by rw [h]; decide :
      ¬(jsStartsWith (aliasExpand (jsTrim cmd)) "cd " = true ∨
        aliasExpand (jsTrim cmd) = "cd"))]
    rw [if_pos h]
    exact ⟨by simp [logCommand], by simp [logCommand], by simp [logCommand]⟩
  · rw [if_neg (by rw [h]; decide :
      ¬(jsStartsWith (aliasExpand (jsTrim cmd)) "cd " = true ∨
        aliasExpand (jsTrim cmd) = "cd"))]
    rw [if_neg (by rw [h]; decide : ¬aliasExpand (jsTrim cmd) = "clear")]
    rw [if_neg (by rw [h]; decide :
      ¬(aliasExpand (jsTrim cmd) = "stats" ∨ aliasExpand (jsTrim cmd) = "performance"))]
    rw [if_neg (by rw [h]; decide :
      ¬jsStartsWith (aliasExpand (jsTrim cmd)) "logs" = true)]
    rw [if_neg (by rw [h]; decide :
      ¬(aliasExpand (jsTrim cmd) = "export logs" ∨
        aliasExpand (jsTrim cmd) = "export-logs"))]
    rw [if_pos h]
    exact ⟨by simp [logCommand], by simp [logCommand], by simp [logCommand]⟩
  · rw [if_neg (by rw [h]; decide :
      ¬(jsStartsWith (aliasExpand (jsTrim cmd)) "cd " = true ∨
        aliasExpand (jsTrim cmd) = "cd"))]
    rw [if_neg (by rw [h]; decide : ¬aliasExpand (jsTrim cmd) = "clear")]
    rw [if_pos (Or.inl h)]
    exact ⟨by simp [logCommand], by simp [logCommand], by simp [logCommand]⟩
  · rw [if_neg (by rw [h]; decide :
      ¬(jsStartsWith (aliasExpand (jsTrim cmd)) "cd " = true ∨
        aliasExpand (jsTrim cmd) = "cd"))]
    rw [if_neg (by rw [h]; decide : ¬aliasExpand (jsTrim cmd) = "clear")]
    rw [if_pos (Or.inr h)]
    exact ⟨by simp [logCommand], by simp [logCommand], by simp [logCommand]⟩
  · rw [if_neg (by rw [h]; decide :
      ¬(jsStartsWith (aliasExpand (jsTrim cmd)) "cd " = true ∨
        aliasExpand (jsTrim cmd) = "cd"))]
    rw [if_neg (by rw [h]; decide : ¬aliasExpand (jsTrim cmd) = "clear")]
    rw [if_neg (by rw [h]; decide :
      ¬(aliasExpand (jsTrim cmd) = "stats" ∨ aliasExpand (jsTrim cmd) = "performance"))]
    rw [if_neg (by rw [h]; decide :
      ¬jsStartsWith (aliasExpand (jsTrim cmd)) "logs" = true)]
    rw [if_pos (Or.inl h)]
    exact ⟨by simp [logCommand], by simp [logCommand], by simp [logCommand]⟩
  · rw [if_neg (by rw [h]; decide :
      ¬(jsStartsWith (aliasExpand (jsTrim cmd)) "cd " = true ∨
        aliasExpand (jsTrim cmd) = "cd"))]
    rw [if_neg (by rw [h]; decide : ¬aliasExpand (jsTrim cmd) = "clear")]
    rw [if_neg (by rw [h]; decide :
      ¬(aliasExpand (jsTrim cmd) = "stats" ∨ aliasExpand (jsTrim cmd) = "performance"))]
    rw [if_neg (by rw [h]; decide :
      ¬jsStartsWith (aliasExpand (jsTrim cmd)) "logs" = true)]
    rw [if_pos (Or.inr h)]
    exact ⟨by simp [logCommand], by simp [logCommand], by simp [logCommand]⟩
  · obtain ⟨r, hr⟩ := startsWith_logs_shape h
    rw [if_neg (show ¬(jsStartsWith (aliasExpand (jsTrim cmd)) "cd " = true ∨
        aliasExpand (jsTrim cmd) = "cd") from by
      rintro (hx | hx)
      · have htake := jsStartsWith_take hx
        rw [hr] at htake
        simp at htake
      · rw [str_eq_iff_data, hr] at hx
        simp at hx)]
    rw [if_neg (show ¬aliasExpand (jsTrim cmd) = "clear" from by
      intro hx
      rw [str_eq_iff_data, hr] at hx
      simp at hx)]
    rw [if_neg (show ¬(aliasExpand (jsTrim cmd) = "stats" ∨
        aliasExpand (jsTrim cmd) = "performance") from by
      rintro (hx | hx) <;> rw [str_eq_iff_data, hr] at hx <;> simp at hx)]
    rw [if_pos h]
    exact ⟨by simp [logCommand], by simp [logCommand], by simp [logCommand]⟩

/-- Witness for C10: `clear` with a state whose transcript is non-empty. -/
theorem c10_witness :
    (executeCommand execC5 0 stC5 "clear").calls = stC5.calls ∧
    (executeCommand execC5 0 stC5 "clear").currentDir = stC5.currentDir := by
  have h := c10_builtins_intercepted execC5 0 stC5 "clear" (Or.inl (by decide))
  exact ⟨h.1, h.2.1⟩

end QuickTerm
